/-
Verification of the documentanalysis repository: a shallow embedding of the
browser upload layer (src/App.js, src/components/DocumentUpload, and
src/DocumentUploader.js) together with a model of the classification-and-
routing pipeline described by the specification, and proofs of the spec's
testable properties over these definitions.
-/
import Mathlib

set_option autoImplicit false

namespace DocAnalysis

/-! ## JavaScript value model

A minimal model of the JavaScript values flowing through the upload layer.
Property access on `null` or `undefined` throws a `TypeError`; on any other
value it is total (returning `undefined` for absent fields, as in JS). -/

inductive JSValue where
  | undefined
  | null
  | bool (b : Bool)
  | num (n : Int)
  | str (s : String)
  | obj (fields : List (String × JSValue))

/-- JS property access `v.name`: throws `TypeError` on `null`/`undefined`,
returns the field value (or `undefined`) otherwise. -/
def JSValue.getProp : JSValue → String → Except String JSValue
  | .undefined, _ => .error "TypeError: Cannot read properties of undefined"
  | .null, _ => .error "TypeError: Cannot read properties of null"
  | .obj fields, name =>
      match fields.lookup name with
      | some v => .ok v
      | none => .ok .undefined
  | _, _ => .ok .undefined

/-- JS truthiness of a value (used for `x || default`). -/
def JSValue.truthy : JSValue → Bool
  | .undefined => false
  | .null => false
  | .bool b => b
  | .num n => n != 0
  | .str s => s ≠ ""
  | .obj _ => true

/-- JS string coercion, as used when a value becomes an error message. -/
def JSValue.asString : JSValue → String
  | .undefined => "undefined"
  | .null => "null"
  | .bool b => if b then "true" else "false"
  | .num n => toString n
  | .str s => s
  | .obj _ => "[object Object]"

/-- `s || dflt` on JS strings: the empty string is the only falsy string. -/
def strOr (s dflt : String) : String := if s = "" then dflt else s

/-! ## Network environment

The upload layer talks to the backend over two endpoints, `/health` and
`/upload`.  The environment records the outcome the network would deliver for
each: a fetch either rejects (network error) or yields a response with an
`ok` flag and a body whose JSON parse may itself fail. -/

inductive FetchOutcome where
  | reject (msg : String)
  | response (ok : Bool) (body : Except String JSValue)

structure BackendEnv where
  /-- Outcome of a fetch to `/health`: `none` = rejected, `some ok` = response
  with that `ok` flag. -/
  healthOk : Option Bool
  /-- Outcome of a fetch to `/upload`. -/
  uploadResult : FetchOutcome

/-! ## App.js -/

inductive StatusType where
  | success
  | error
deriving DecidableEq, Repr

structure UploadStatusMsg where
  type : StatusType
  message : String
deriving DecidableEq, Repr

/-- The React state held by the `App` component. -/
structure AppState where
  uploadStatus : Option UploadStatusMsg
  loading : Bool
  analysis : Option JSValue
  response : Option JSValue
  error : Option String

/-- `resetState` from App.js: clears uploadStatus, analysis, response, error. -/
def resetState (s : AppState) : AppState :=
  { s with uploadStatus := none, analysis := none, response := none, error := none }

def uploadSuccessStatus : UploadStatusMsg :=
  ⟨.success, "Document uploaded and processed successfully!"⟩

/-- The catch branch of `handleUpload`: sets the error message and an
error-typed upload status on the state accumulated so far. -/
def handleUploadCatch (m : String) (s : AppState) : AppState :=
  let msg := strOr m "Error uploading document. Please try again."
  { s with error := some msg, uploadStatus := some ⟨.error, msg⟩ }

/-- `handleUpload` from App.js: sets loading, resets state, then in a
`try` block sets a success status and reads `data.analysis` and
`data.response` (each read may throw); the `catch` branch records an error
status; the `finally` branch clears `loading`. -/
def handleUpload (data : JSValue) (s0 : AppState) : AppState :=
  let s1 := resetState { s0 with loading := true }
  let s2 := { s1 with uploadStatus := some uploadSuccessStatus }
  let s3 :=
    match data.getProp "analysis" with
    | .error m => handleUploadCatch m s2
    | .ok a =>
        let sa := { s2 with analysis := some a }
        match data.getProp "response" with
        | .error m => handleUploadCatch m sa
        | .ok r => { sa with response := some r }
  { s3 with loading := false }

/-- `checkBackendHealth` from App.js: fetches `/health`; a non-ok response
throws inside the `try`, and every failure is re-thrown from the `catch` as
the "not available" error; on success it returns `true` and nothing else. -/
def checkBackendHealth (env : BackendEnv) : Except String Bool :=
  match env.healthOk with
  | some true => .ok true
  | some false =>
      .error "Backend service is not available. Please make sure the backend server is running."
  | none =>
      .error "Backend service is not available. Please make sure the backend server is running."

/-! ## DocumentUpload component (src/components/DocumentUpload) -/

/-- A dropped browser file: name and MIME type. -/
structure JFile where
  name : String
  type : String
deriving DecidableEq, Repr

/-- An HTTP request assembled by the drop handler: target URL and the files
appended to its form data. -/
structure Request where
  url : String
  files : List JFile
deriving DecidableEq, Repr

/-- The observable outcome of one run of the drop handler: final component
state plus the requests sent and the arguments passed to `onUpload`. -/
structure DropResult where
  error : Option String
  uploadStatus : Option String
  requests : List Request
  uploadCalls : List JSValue

def allowedTypes : List String := ["application/pdf", "application/json", "text/plain"]

def uploadUrl : String := "http://localhost:3001/upload"

def invalidTypeMsg : String := "Invalid file type. Please upload PDF, JSON, or TXT files only."

/-- The error message thrown for a non-ok upload response:
`errorData.error || 'Upload failed'`, where reading `.error` may itself
throw if the parsed body is `null`. -/
def nonOkThrowMsg (data : JSValue) : String :=
  match data.getProp "error" with
  | .error m => m
  | .ok v => if v.truthy then v.asString else "Upload failed"

/-- `onDrop` from the DocumentUpload component: takes the accepted files,
validates the first file's MIME type before any request is sent, then posts
the form data to `/upload` and reacts to the response.  On an empty file
list, `acceptedFiles[0]` is `undefined` and reading `.type` throws, which is
modelled as the `.error` result. -/
def onDrop (env : BackendEnv) (acceptedFiles : List JFile) : Except String DropResult :=
  match acceptedFiles with
  | [] => .error "TypeError: Cannot read properties of undefined"
  | file :: _ =>
      if file.type ∈ allowedTypes then
        let req : Request := ⟨uploadUrl, [file]⟩
        match env.uploadResult with
        | .reject m =>
            .ok ⟨some (strOr m "Failed to upload file. Please try again."),
                 some "error", [req], []⟩
        | .response ok body =>
            if ok then
              match body with
              | .ok data => .ok ⟨none, some "success", [req], [data]⟩
              | .error m =>
                  .ok ⟨some (strOr m "Failed to upload file. Please try again."),
                       some "error", [req], []⟩
            else
              match body with
              | .ok data =>
                  .ok ⟨some (strOr (nonOkThrowMsg data) "Failed to upload file. Please try again."),
                       some "error", [req], []⟩
              | .error m =>
                  .ok ⟨some (strOr m "Failed to upload file. Please try again."),
                       some "error", [req], []⟩
      else
        .ok ⟨some invalidTypeMsg, none, [], []⟩

/-- A dropzone configuration, as passed to `useDropzone`. -/
structure DropzoneConfig where
  accept : List (String × List String)
  multiple : Bool
  maxFiles : Option Nat
deriving DecidableEq, Repr

/-- The `useDropzone` configuration in the DocumentUpload component. -/
def documentUploadDropzone : DropzoneConfig :=
  ⟨[("application/pdf", [".pdf"]), ("application/json", [".json"]),
    ("text/plain", [".txt"])], false, none⟩

/-- The `useDropzone` configuration in src/DocumentUploader.js. -/
def documentUploaderDropzone : DropzoneConfig :=
  ⟨[("application/pdf", [".pdf"]), ("application/json", [".json"]),
    ("text/plain", [".txt"])], false, some 1⟩

/-- `onDrop` from src/DocumentUploader.js: the list of arguments it passes to
`onUpload` — the first accepted file when there is one, nothing otherwise. -/
def uploaderOnDropCalls (acceptedFiles : List JFile) : List JFile :=
  match acceptedFiles with
  | [] => []
  | f :: _ => [f]

/-! ## Core pipeline data model

The classification-and-routing pipeline (Shared Memory, Classifier Agent,
JSON Agent, Email Agent, Document Processor) is the Python core of this
repository; only its README ships under src/, so the definitions below are
modelled from the specification (sections 3 and 4). -/

/-- Modelled from the spec: the `file_type` enum of the Document record
(missing Python core). -/
inductive FileType where
  | PDF
  | JSON
  | EMAIL
  | UNKNOWN
deriving DecidableEq, Repr

/-- Modelled from the spec: the ordinal urgency levels derived by the Email
Agent (missing Python core). -/
inductive Urgency where
  | Low
  | Medium
  | High
deriving DecidableEq, Repr

/-- Modelled from the spec: a primitive JSON field value (missing Python
core); full JSON parsing is delegated per the spec's non-goals. -/
inductive JsonVal where
  | str (s : String)
  | num (n : Int)
  | bool (b : Bool)
  | null
deriving DecidableEq, Repr

/-- A parsed JSON object: an association list of field names to values. -/
abbrev JsonObj := List (String × JsonVal)

/-- Modelled from the spec: raw document content, "bytes or text" (missing
Python core).  Parsing beyond what classification needs is out of scope, so
content is either plain text or text that parses to a JSON object. -/
inductive RawContent where
  | text (s : String)
  | jsonObj (o : JsonObj)
deriving DecidableEq, Repr

/-- The text view of raw content, fed to the AI capability as an excerpt. -/
def RawContent.asText : RawContent → String
  | .text s => s
  | .jsonObj o => String.intercalate "," (o.map (fun p => p.1))

/-- Modelled from the spec: the Document record (missing Python core);
immutable once created, `doc_id` identifies all subsequent records. -/
structure Document where
  doc_id : Nat
  source : String
  raw_content : RawContent
  file_type : FileType
deriving DecidableEq, Repr

/-- Modelled from the spec: the Classification record (missing Python core). -/
structure Classification where
  file_type : FileType
  intent : String
  confidence : Option Int
  source : String
  doc_id : Nat
deriving DecidableEq, Repr

/-- Modelled from the spec: the validation part of a JSONResult (missing
Python core). -/
structure Validation where
  is_valid : Bool
  missing_fields : List String
deriving DecidableEq, Repr

/-- Modelled from the spec: the `JSONResult` variant content (missing Python
core): standardized shape `type` + `standardized_fields`, plus validation. -/
structure JSONResult where
  std_type : String
  standardized_fields : JsonObj
  validation : Validation
deriving DecidableEq, Repr

/-- Modelled from the spec: email headers extracted by the Email Agent
(missing Python core); absent headers degrade to empty values. -/
structure EmailHeaders where
  sender : String
  subject : String
  message_id : String
  references : List String
deriving DecidableEq, Repr

/-- Modelled from the spec: the analysis part of an EmailResult (missing
Python core). -/
structure EmailAnalysis where
  intent : String
  urgency : Urgency
  summary : String
deriving DecidableEq, Repr

/-- Modelled from the spec: the polymorphic ProcessingResult (missing Python
core).  The spec details the JSONResult and EmailResult variants; section 9
requires a handler for the PDF variant in the dispatch table, whose output is
not further specified and is modelled as the classified excerpt.  Each result
belongs to exactly one Document, so it carries that document's `doc_id`. -/
inductive ProcessingResult where
  | jsonResult (doc_id : Nat) (result : JSONResult)
  | emailResult (doc_id : Nat) (headers : EmailHeaders) (analysis : EmailAnalysis) (thread_id : Nat)
  | pdfResult (doc_id : Nat) (excerpt : String)
deriving DecidableEq, Repr

/-- The `doc_id` of the Document a ProcessingResult belongs to. -/
def ProcessingResult.docId : ProcessingResult → Nat
  | .jsonResult d _ => d
  | .emailResult d _ _ _ => d
  | .pdfResult d _ => d

/-- Modelled from the spec: a sequence-numbered trace event (missing Python
core). -/
structure TraceEvent where
  step_name : String
  seq : Nat
  payload_summary : String
deriving DecidableEq, Repr

/-- Modelled from the spec: the MemoryEntry stored in Shared Memory (missing
Python core); append-only trace, replace-on-write structured fields. -/
structure MemoryEntry where
  document : Document
  classification : Option Classification
  processing_result : Option ProcessingResult
  trace : List TraceEvent
deriving DecidableEq, Repr

/-- Shared Memory errors: programming/integration errors, always surfaced. -/
inductive MemError where
  | DuplicateKey
  | NotFound
deriving DecidableEq, Repr

/-- Shared Memory: a keyed store of MemoryEntries, keyed by `doc_id`. -/
abbrev SharedMemory := List (Nat × MemoryEntry)

/-- The structured field named in a Shared Memory `update`. -/
inductive MemField where
  | classification (c : Classification)
  | processing_result (r : ProcessingResult)
deriving DecidableEq, Repr

/-- Modelled from the spec: `create(doc_id, document)` on Shared Memory
(missing Python core); fails with `DuplicateKey` if the key exists. -/
def SharedMemory.create (m : SharedMemory) (docId : Nat) (doc : Document) :
    Except MemError (MemoryEntry × SharedMemory) :=
  if (m.lookup docId).isSome then .error .DuplicateKey
  else
    let e : MemoryEntry := ⟨doc, none, none, []⟩
    .ok (e, (docId, e) :: m)

/-- Modelled from the spec: `get(doc_id)` on Shared Memory (missing Python
core); fails with `NotFound` if absent. -/
def SharedMemory.get (m : SharedMemory) (docId : Nat) : Except MemError MemoryEntry :=
  match m.lookup docId with
  | some e => .ok e
  | none => .error .NotFound

/-- Replace the named structured field and append a trace event. -/
def updateEntry (e : MemoryEntry) (f : MemField) : MemoryEntry :=
  match f with
  | .classification c =>
      { e with classification := some c,
               trace := e.trace ++ [⟨"classification", e.trace.length, c.intent⟩] }
  | .processing_result r =>
      { e with processing_result := some r,
               trace := e.trace ++ [⟨"processing_result", e.trace.length, ""⟩] }

/-- Modelled from the spec: `update(doc_id, field, value)` on Shared Memory
(missing Python core); replaces the named structured field, appends a trace
event, and fails with `NotFound` if the entry does not exist. -/
def SharedMemory.update : SharedMemory → Nat → MemField → Except MemError SharedMemory
  | [], _, _ => .error .NotFound
  | (k, e) :: rest, docId, f =>
      if k = docId then .ok ((k, updateEntry e f) :: rest)
      else
        match SharedMemory.update rest docId f with
        | .ok rest' => .ok ((k, e) :: rest')
        | .error err => .error err

/-- Modelled from the spec: `append_trace(doc_id, event)` on Shared Memory
(missing Python core); succeeds whenever the entry exists. -/
def SharedMemory.append_trace : SharedMemory → Nat → String → String → Except MemError SharedMemory
  | [], _, _, _ => .error .NotFound
  | (k, e) :: rest, docId, step, payload =>
      if k = docId then
        .ok ((k, { e with trace := e.trace ++ [⟨step, e.trace.length, payload⟩] }) :: rest)
      else
        match SharedMemory.append_trace rest docId step payload with
        | .ok rest' => .ok ((k, e) :: rest')
        | .error err => .error err

/-! ## Classifier Agent -/

/-- Modelled from the spec: the external AI capability interface (missing
Python core): `infer(text, purpose)`, split by purpose into intent inference
(label + optional confidence) and urgency/summary inference. -/
structure Capability where
  inferIntent : String → String × Option Int
  inferUrgency : String → Urgency × String

/-- Pipeline-level errors of the spec's error taxonomy. -/
inductive PipeError where
  | UnsupportedFormat
  | MalformedInput
  | ClassificationUnavailable
  | DuplicateKeyErr
  | NotFoundErr
deriving DecidableEq, Repr

/-- Human-readable reason strings for the error envelope. -/
def pipeErrMsg : PipeError → String
  | .UnsupportedFormat => "UnsupportedFormat"
  | .MalformedInput => "MalformedInput"
  | .ClassificationUnavailable => "ClassificationUnavailable"
  | .DuplicateKeyErr => "DuplicateKey"
  | .NotFoundErr => "NotFound"

/-- Modelled from the spec: file type detection from the declared extension
of the source path (missing Python core); unresolved extensions map to
`UNKNOWN`.  Per the README, plain-text `.txt` content is the email format. -/
def detectFileType (source : String) : FileType :=
  if (".pdf".data).isSuffixOf source.data then .PDF
  else if (".json".data).isSuffixOf source.data then .JSON
  else if (".txt".data).isSuffixOf source.data then .EMAIL
  else .UNKNOWN

/-- Modelled from the spec: the bounded text excerpt used for intent
inference (missing Python core): full content for JSON/email, a bounded
prefix for PDF. -/
def excerpt (ft : FileType) (content : RawContent) : String :=
  if ft = .PDF then (content.asText.take 500) else content.asText

/-- Modelled from the spec: `classify(document)` of the Classifier Agent
(missing Python core).  Fails with `UnsupportedFormat` on `UNKNOWN` before
any record is written; otherwise invokes the capability on the excerpt,
constructs the Classification, and persists it via Shared Memory. -/
def classify (cap : Capability) (doc : Document) (m : SharedMemory) :
    Except PipeError (Classification × SharedMemory) :=
  if doc.file_type = .UNKNOWN then .error .UnsupportedFormat
  else
    let inferred := cap.inferIntent (excerpt doc.file_type doc.raw_content)
    let c : Classification := ⟨doc.file_type, inferred.1, inferred.2, doc.source, doc.doc_id⟩
    match m.update doc.doc_id (.classification c) with
    | .ok m2 => .ok (c, m2)
    | .error _ => .error .NotFoundErr

/-! ## JSON Agent -/

/-- Parse raw content as a JSON object; `none` means malformed input. -/
def parseJson : RawContent → Option JsonObj
  | .jsonObj o => some o
  | .text _ => none

/-- Whether a parsed payload carries the named field. -/
def hasField (payload : JsonObj) (f : String) : Bool :=
  (payload.lookup f).isSome

/-- Modelled from the spec: the JSON Agent's validation and standardization
step (missing Python core).  Required fields come from a per-intent,
table-driven schema; missing fields are recorded in the validation, never
fatal, and the standardized result keeps whatever required fields are
present. -/
def standardize (schema : String → List String) (intent : String) (payload : JsonObj) :
    JSONResult :=
  let required := schema intent
  let missing := required.filter (fun f => !hasField payload f)
  let fields := required.filterMap (fun f => (payload.lookup f).map (fun v => (f, v)))
  ⟨intent, fields, ⟨missing.isEmpty, missing⟩⟩

/-- Modelled from the spec: `process(document, classification)` of the JSON
Agent (missing Python core).  Malformed input is fatal to the
ProcessingResult (the attempt's trace logging is kept in Shared Memory by
the orchestrator's entry); otherwise the standardized result is persisted. -/
def jsonAgentProcess (schema : String → List String) (doc : Document)
    (cls : Classification) (m : SharedMemory) :
    Except PipeError (ProcessingResult × SharedMemory) :=
  match parseJson doc.raw_content with
  | none => .error .MalformedInput
  | some payload =>
      let r : ProcessingResult := .jsonResult doc.doc_id (standardize schema cls.intent payload)
      match m.update doc.doc_id (.processing_result r) with
      | .ok m2 => .ok (r, m2)
      | .error _ => .error .NotFoundErr

/-! ## Email Agent -/

/-- The leading header block of an email text: lines before the first blank
line. -/
def headerBlock (text : String) : List String :=
  (text.splitOn "\n").takeWhile (fun l => l.trim ≠ "")

/-- Best-effort value of the header with the given key; empty if absent. -/
def headerValue (ls : List String) (key : String) : String :=
  match ls.find? (fun l => l.startsWith key) with
  | some l => (l.drop key.length).trim
  | none => ""

/-- Modelled from the spec: header extraction by the Email Agent (missing
Python core); malformed or absent headers degrade to empty values, never
fatal. -/
def extractHeaders (text : String) : EmailHeaders :=
  let ls := headerBlock text
  let refs := ((headerValue ls "References:").splitOn " ").filter (fun r => r ≠ "")
  let inReplyTo := headerValue ls "In-Reply-To:"
  { sender := headerValue ls "From:",
    subject := headerValue ls "Subject:",
    message_id := headerValue ls "Message-ID:",
    references := refs ++ (if inReplyTo = "" then [] else [inReplyTo]) }

/-- Strip leading reply/forward markers, with fuel bounding the recursion. -/
def stripReplyMarks : Nat → String → String
  | 0, s => s.trim
  | n + 1, s =>
      let t := s.trim
      if t.toLower.startsWith "re:" then stripReplyMarks n (t.drop 3)
      else if t.toLower.startsWith "fwd:" then stripReplyMarks n (t.drop 4)
      else t

/-- Modelled from the spec: subject normalization used for thread matching
(missing Python core). -/
def normalizeSubject (s : String) : String :=
  (stripReplyMarks s.length s).toLower

/-- Modelled from the spec: a ThreadRecord grouping messages of one
conversation (missing Python core); created on first message seen, extended
by later messages. -/
structure ThreadRecord where
  thread_id : Nat
  subject_norm : String
  participants : List String
  msgIds : List String
  doc_ids : List Nat
deriving DecidableEq, Repr

/-- A message matches a thread through an explicit reference header: same
normalized subject and one of its references is a message of the thread. -/
def refPred (h : EmailHeaders) (t : ThreadRecord) : Prop :=
  normalizeSubject h.subject = t.subject_norm ∧ ∃ r ∈ h.references, r ∈ t.msgIds

/-- A message matches a thread through its participant set: same normalized
subject and the sender already participates in the thread. -/
def partPred (h : EmailHeaders) (t : ThreadRecord) : Prop :=
  normalizeSubject h.subject = t.subject_norm ∧ h.sender ∈ t.participants

instance (h : EmailHeaders) : DecidablePred (refPred h) := fun _t =>
  inferInstanceAs (Decidable (_ ∧ _))

instance (h : EmailHeaders) : DecidablePred (partPred h) := fun _t =>
  inferInstanceAs (Decidable (_ ∧ _))

/-- Extend (never replace) a thread with one more message. -/
def addMsg (h : EmailHeaders) (docId : Nat) (t : ThreadRecord) : ThreadRecord :=
  { t with participants := h.sender :: t.participants,
           msgIds := h.message_id :: t.msgIds,
           doc_ids := docId :: t.doc_ids }

/-- A thread identifier strictly larger than every existing one. -/
def freshThreadId (ts : List ThreadRecord) : Nat :=
  (ts.foldr (fun t acc => max t.thread_id acc) 0) + 1

/-- Find the first thread satisfying `p`, extend it in place with `f`, and
return its identifier together with the updated store. -/
def findAndAdd (p : ThreadRecord → Prop) [DecidablePred p] (f : ThreadRecord → ThreadRecord) :
    List ThreadRecord → Option (Nat × List ThreadRecord)
  | [] => none
  | t :: ts =>
      if p t then some (t.thread_id, f t :: ts)
      else
        match findAndAdd p f ts with
        | some (tid, ts') => some (tid, t :: ts')
        | none => none

/-- Modelled from the spec: `thread_id` resolution by the Email Agent
(missing Python core).  Search existing ThreadRecords for a match on
normalized subject plus reference headers, then on normalized subject plus
participant set; if found, append to that thread; else create a new
ThreadRecord under a fresh identifier. -/
def resolveThread (ts : List ThreadRecord) (h : EmailHeaders) (docId : Nat) :
    Nat × List ThreadRecord :=
  match findAndAdd (refPred h) (addMsg h docId) ts with
  | some res => res
  | none =>
      match findAndAdd (partPred h) (addMsg h docId) ts with
      | some res => res
      | none =>
          let tid := freshThreadId ts
          (tid, ⟨tid, normalizeSubject h.subject, [h.sender], [h.message_id], [docId]⟩ :: ts)

/-- Modelled from the spec: `process(document, classification)` of the Email
Agent (missing Python core).  Extracts headers, derives urgency and summary
from the capability, resolves the thread, and persists the result. -/
def emailAgentProcess (cap : Capability) (threads : List ThreadRecord) (doc : Document)
    (cls : Classification) (m : SharedMemory) :
    Except PipeError (ProcessingResult × List ThreadRecord × SharedMemory) :=
  let h := extractHeaders doc.raw_content.asText
  let derived := cap.inferUrgency doc.raw_content.asText
  let resolved := resolveThread threads h doc.doc_id
  let r : ProcessingResult :=
    .emailResult doc.doc_id h ⟨cls.intent, derived.1, derived.2⟩ resolved.1
  match m.update doc.doc_id (.processing_result r) with
  | .ok m2 => .ok (r, resolved.2, m2)
  | .error _ => .error .NotFoundErr

/-- Modelled from the spec: the handler the dispatch table maps the PDF
variant to (missing Python core); the spec fixes only its presence, so it
persists the classified excerpt as the result. -/
def pdfAgentProcess (doc : Document) (m : SharedMemory) :
    Except PipeError (ProcessingResult × SharedMemory) :=
  let r : ProcessingResult := .pdfResult doc.doc_id (excerpt .PDF doc.raw_content)
  match m.update doc.doc_id (.processing_result r) with
  | .ok m2 => .ok (r, m2)
  | .error _ => .error .NotFoundErr

/-! ## Document Processor -/

/-- Modelled from the spec: the static dispatch table, a closed
tagged-variant over the file types mapping each to its handler (missing
Python core). -/
def dispatchAgent (cap : Capability) (schema : String → List String)
    (threads : List ThreadRecord) (doc : Document) (cls : Classification)
    (m : SharedMemory) :
    Except PipeError (ProcessingResult × List ThreadRecord × SharedMemory) :=
  match doc.file_type with
  | .JSON =>
      match jsonAgentProcess schema doc cls m with
      | .ok (r, m2) => .ok (r, threads, m2)
      | .error e => .error e
  | .EMAIL => emailAgentProcess cap threads doc cls m
  | .PDF =>
      match pdfAgentProcess doc m with
      | .ok (r, m2) => .ok (r, threads, m2)
      | .error e => .error e
  | .UNKNOWN => .error .UnsupportedFormat

/-- The final standardized envelope returned to the caller. -/
structure Envelope where
  status : String
  message : Option String
  classification : Option Classification
  processing_result : Option ProcessingResult
deriving DecidableEq, Repr

/-- The orchestrator's state: the next fresh `doc_id`, the Shared Memory
store, and the Email Agent's thread store. -/
structure ProcState where
  nextId : Nat
  memory : SharedMemory
  threads : List ThreadRecord
deriving DecidableEq, Repr

/-- A well-formed processor state: every key already stored in Shared Memory
is below the next identifier to be assigned, so freshly generated `doc_id`s
are never reused. -/
def ProcState.WF (st : ProcState) : Prop :=
  ∀ p ∈ st.memory, p.1 < st.nextId

/-- Modelled from the spec: `process_document(content, source_path)` of the
Document Processor (missing Python core).  Assigns a fresh `doc_id`, creates
the MemoryEntry, invokes `classify`, dispatches to the matched agent, and
assembles the envelope whose status comes from the terminal state. -/
def process_document (cap : Capability) (schema : String → List String)
    (st : ProcState) (content : RawContent) (source : String) :
    Envelope × ProcState :=
  let d := st.nextId
  let doc : Document := ⟨d, source, content, detectFileType source⟩
  match st.memory.create d doc with
  | .error _ =>
      (⟨"error", some (pipeErrMsg .DuplicateKeyErr), none, none⟩,
       ⟨d + 1, st.memory, st.threads⟩)
  | .ok (_, m1) =>
      match classify cap doc m1 with
      | .error e =>
          (⟨"error", some (pipeErrMsg e), none, none⟩, ⟨d + 1, m1, st.threads⟩)
      | .ok (c, m2) =>
          match dispatchAgent cap schema st.threads doc c m2 with
          | .error e =>
              (⟨"error", some (pipeErrMsg e), some c, none⟩, ⟨d + 1, m2, st.threads⟩)
          | .ok (r, threads', m3) =>
              (⟨"success", none, some c, some r⟩, ⟨d + 1, m3, threads'⟩)

/-! ## Helpers for stating the claims, and concrete fixtures -/

/-- Remove every binding of a field from a payload ("removing a required
field from a valid payload"). -/
def eraseField (f : String) : JsonObj → JsonObj
  | [] => []
  | kv :: rest => if kv.1 = f then eraseField f rest else kv :: eraseField f rest

/-- Structural identity of ProcessingResults modulo the `doc_id` under which
they were produced. -/
def ProcessingResult.sameModuloId : ProcessingResult → ProcessingResult → Prop
  | .jsonResult _ a, .jsonResult _ b => a = b
  | .emailResult _ h1 a1 t1, .emailResult _ h2 a2 t2 => h1 = h2 ∧ a1 = a2 ∧ t1 = t2
  | .pdfResult _ e1, .pdfResult _ e2 => e1 = e2
  | _, _ => False

/-- A deterministic capability stub, as the spec requires for tests. -/
def stubCap : Capability :=
  ⟨fun _ => ("Invoice", some 90), fun _ => (.Medium, "Payment request")⟩

/-- The per-intent required-field schema of the spec's Invoice example. -/
def invoiceSchema : String → List String :=
  fun i => if i = "Invoice" then ["document_id", "value", "timestamp"] else []

/-- The spec's scenario payload with all Invoice fields present. -/
def fullInvoice : JsonObj :=
  [("document_id", .str "INV-001"), ("value", .num 1000), ("timestamp", .str "2024-03-20")]

/-- A concrete JSON document fixture. -/
def docW : Document := ⟨5, "inv.json", .jsonObj fullInvoice, .JSON⟩

/-- Shared Memory holding just the fixture's freshly created entry. -/
def memW : SharedMemory := [(5, ⟨docW, none, none, []⟩)]

/-- The classification the stub capability produces for the fixture. -/
def clsW : Classification := ⟨.JSON, "Invoice", some 90, "inv.json", 5⟩

/-- Shared Memory after the fixture's classification is persisted. -/
def memW2 : SharedMemory :=
  [(5, ⟨docW, some clsW, none, [⟨"classification", 0, "Invoice"⟩]⟩)]

/-- The processing result of the fixture. -/
def resW : ProcessingResult := .jsonResult 5 (standardize invoiceSchema "Invoice" fullInvoice)

/-- Shared Memory after the fixture's processing result is persisted. -/
def memW3 : SharedMemory :=
  [(5, ⟨docW, some clsW, some resW,
        [⟨"classification", 0, "Invoice"⟩, ⟨"processing_result", 1, ""⟩]⟩)]

/-! ## Theorems -/

/-- C7: the health/liveness check is excluded from processing and is a no-op
probe: the drop handler's behaviour is independent of the health endpoint's
outcome, and `checkBackendHealth` yields nothing but a boolean availability
probe or an availability error. -/
theorem health_check_noop :
    (∀ e₁ e₂ : BackendEnv, e₁.uploadResult = e₂.uploadResult →
      ∀ files, onDrop e₁ files = onDrop e₂ files) ∧
    (∀ e : BackendEnv, checkBackendHealth e = .ok true ∨
      checkBackendHealth e =
        .error "Backend service is not available. Please make sure the backend server is running.") := by
  constructor
  · intro e₁ e₂ h files
    cases files with
    | nil => rfl
    | cons f rest => simp only [onDrop, h]
  · intro e
    match e with
    | ⟨some true, _⟩ => exact .inl rfl
    | ⟨some false, _⟩ => exact .inr rfl
    | ⟨none, _⟩ => exact .inr rfl

/-- Witness for C7: two environments differing only in the health outcome
give identical drop-handler behaviour. -/
theorem health_check_noop_witness :
    (BackendEnv.mk (some true) (.reject "down")).uploadResult =
      (BackendEnv.mk none (.reject "down")).uploadResult ∧
    onDrop ⟨some true, .reject "down"⟩ [⟨"a.pdf", "application/pdf"⟩] =
      onDrop ⟨none, .reject "down"⟩ [⟨"a.pdf", "application/pdf"⟩] :=
  ⟨rfl, health_check_noop.1 ⟨some true, .reject "down"⟩ ⟨none, .reject "down"⟩ rfl _⟩

/-- C8 counterexample: `handleUpload` applied to a `null` response body does
not end in the success variant: reading `data.analysis` throws, the catch
branch runs, and the final status is the error variant. -/
theorem handleUpload_null_yields_error :
    (handleUpload JSValue.null ⟨none, false, none, none, none⟩).uploadStatus =
      some ⟨StatusType.error, "TypeError: Cannot read properties of null"⟩ ∧
    StatusType.error ≠ StatusType.success :=
  ⟨rfl, by decide⟩

/-- C8 amended: for every argument other than `null` and `undefined`,
`handleUpload` terminates with the success status and `loading = false`; the
catch branch is reachable only for `null`/`undefined` arguments, whose
property reads throw. -/
theorem handleUpload_succeeds_on_nonnull (data : JSValue) (s : AppState)
    (h1 : data ≠ JSValue.null) (h2 : data ≠ JSValue.undefined) :
    (handleUpload data s).uploadStatus = some uploadSuccessStatus ∧
    (handleUpload data s).loading = false := by
  cases data with
  | null => exact absurd rfl h1
  | undefined => exact absurd rfl h2
  | bool b => exact ⟨rfl, rfl⟩
  | num n => exact ⟨rfl, rfl⟩
  | str s' => exact ⟨rfl, rfl⟩
  | obj fields =>
      cases ha : fields.lookup "analysis" <;> cases hb : fields.lookup "response" <;>
        simp [handleUpload, JSValue.getProp, ha, hb]

/-- Witness for C8's amended theorem at a concrete object argument. -/
theorem handleUpload_succeeds_witness :
    (JSValue.obj [] ≠ JSValue.null) ∧
    (handleUpload (JSValue.obj []) ⟨none, false, none, none, none⟩).uploadStatus =
      some uploadSuccessStatus ∧
    (handleUpload (JSValue.obj []) ⟨none, false, none, none, none⟩).loading = false :=
  ⟨nofun, (handleUpload_succeeds_on_nonnull (JSValue.obj []) ⟨none, false, none, none, none⟩
      nofun nofun).1,
    (handleUpload_succeeds_on_nonnull (JSValue.obj []) ⟨none, false, none, none, none⟩
      nofun nofun).2⟩

/-- C9: both dropzones are configured single-file, and every upload request
the drop handler builds carries exactly the first dropped file; the
DocumentUploader's handler likewise passes only the first accepted file. -/
theorem upload_single_file :
    documentUploadDropzone.multiple = false ∧
    documentUploaderDropzone.multiple = false ∧
    (∀ env files r, onDrop env files = .ok r →
      ∀ req ∈ r.requests, ∃ f rest, files = f :: rest ∧ req.files = [f]) ∧
    (∀ files f, f ∈ uploaderOnDropCalls files →
      files.head? = some f ∧ uploaderOnDropCalls files = [f]) := by
  refine ⟨rfl, rfl, ?_, ?_⟩
  · intro env files r h req hreq
    cases files with
    | nil => simp [onDrop] at h
    | cons f rest =>
        refine ⟨f, rest, rfl, ?_⟩
        by_cases hf : f.type ∈ allowedTypes
        · cases hu : env.uploadResult with
          | reject m =>
              simp only [onDrop, if_pos hf, hu, Except.ok.injEq] at h
              subst h
              simp at hreq
              subst hreq
              rfl
          | response ok body =>
              cases ok <;> cases body <;>
                · simp only [onDrop, if_pos hf, hu, Except.ok.injEq,
                    Bool.false_eq_true, if_false, if_true, ite_true, ite_false] at h
                  subst h
                  simp at hreq
                  subst hreq
                  rfl
        · simp only [onDrop, if_neg hf, Except.ok.injEq] at h
          subst h
          simp at hreq
  · intro files f hf
    cases files with
    | nil => simp [uploaderOnDropCalls] at hf
    | cons g rest =>
        simp [uploaderOnDropCalls] at hf
        subst hf
        exact ⟨rfl, rfl⟩

/-- Witness for C9 at a concrete single-file drop. -/
theorem upload_single_file_witness :
    onDrop ⟨none, .reject ""⟩ [⟨"a.pdf", "application/pdf"⟩] =
      .ok ⟨some "Failed to upload file. Please try again.", some "error",
           [⟨uploadUrl, [⟨"a.pdf", "application/pdf"⟩]⟩], []⟩ ∧
    ∃ f rest, ([⟨"a.pdf", "application/pdf"⟩] : List JFile) = f :: rest ∧
      (Request.mk uploadUrl [⟨"a.pdf", "application/pdf"⟩]).files = [f] :=
  ⟨rfl, upload_single_file.2.2.1 ⟨none, .reject ""⟩ [⟨"a.pdf", "application/pdf"⟩] _ rfl
    ⟨uploadUrl, [⟨"a.pdf", "application/pdf"⟩]⟩ (by simp)⟩

/-- C10: when the upload fetch rejects or the response is non-ok, the drop
handler records an error message and the error status and never invokes
`onUpload`; `onUpload` receives exactly the parsed body and only for an ok
response. -/
theorem onDrop_failure_no_callback :
    ∀ env file rest r, onDrop env (file :: rest) = .ok r → file.type ∈ allowedTypes →
      (((∃ m, env.uploadResult = .reject m) ∨
         ∃ body, env.uploadResult = .response false body) →
        r.error.isSome = true ∧ r.uploadStatus = some "error" ∧ r.uploadCalls = []) ∧
      (∀ d ∈ r.uploadCalls,
        ∃ v, env.uploadResult = .response true (.ok v) ∧ d = v ∧
          r.uploadStatus = some "success") := by
  intro env file rest r h hf
  cases hu : env.uploadResult with
  | reject m =>
      simp only [onDrop, if_pos hf, hu, Except.ok.injEq] at h
      subst h
      refine ⟨fun _ => ⟨rfl, rfl, rfl⟩, ?_⟩
      intro d hd
      simp at hd
  | response ok body =>
      cases ok with
      | false =>
          cases body with
          | ok v =>
              simp only [onDrop, if_pos hf, hu, Bool.false_eq_true, ite_false,
                Except.ok.injEq] at h
              subst h
              refine ⟨fun _ => ⟨rfl, rfl, rfl⟩, ?_⟩
              intro d hd
              simp at hd
          | error m =>
              simp only [onDrop, if_pos hf, hu, Bool.false_eq_true, ite_false,
                Except.ok.injEq] at h
              subst h
              refine ⟨fun _ => ⟨rfl, rfl, rfl⟩, ?_⟩
              intro d hd
              simp at hd
      | true =>
          cases body with
          | ok v =>
              simp only [onDrop, if_pos hf, hu, ite_true, Except.ok.injEq] at h
              subst h
              refine ⟨?_, ?_⟩
              · rintro (⟨m, hm⟩ | ⟨b, hb⟩)
                · simp at hm
                · simp at hb
              · intro d hd
                simp at hd
                exact ⟨v, rfl, hd, rfl⟩
          | error m =>
              simp only [onDrop, if_pos hf, hu, ite_true, Except.ok.injEq] at h
              subst h
              refine ⟨?_, ?_⟩
              · rintro (⟨m', hm⟩ | ⟨b, hb⟩)
                · simp at hm
                · simp at hb
              · intro d hd
                simp at hd

/-- Witness for C10: a rejected fetch at a concrete drop yields the error
state and no callback. -/
theorem onDrop_failure_no_callback_witness :
    ("application/pdf" ∈ allowedTypes) ∧
    ((some "boom" : Option String).isSome = true ∧
      some "error" = some "error" ∧ ([] : List JSValue) = []) :=
  ⟨by decide,
    (onDrop_failure_no_callback ⟨none, .reject "boom"⟩ ⟨"a.pdf", "application/pdf"⟩ [] _
        rfl (by decide)).1 (.inl ⟨"boom", rfl⟩)⟩

/-! ### Shared Memory helper lemmas -/

theorem lookup_none_of_lt (m : SharedMemory) (n : Nat) (h : ∀ p ∈ m, p.1 < n) :
    m.lookup n = none := by
  induction m with
  | nil => rfl
  | cons p rest ih =>
      have hp : p.1 < n := h p (List.mem_cons_self p rest)
      have hne : (n == p.1) = false := by
        simp [Nat.ne_of_gt hp]
      simp only [List.lookup, hne]
      exact ih (fun q hq => h q (List.mem_cons_of_mem p hq))

theorem create_eq_of_wf (m : SharedMemory) (n : Nat) (doc : Document)
    (h : ∀ p ∈ m, p.1 < n) :
    m.create n doc = .ok (⟨doc, none, none, []⟩, (n, ⟨doc, none, none, []⟩) :: m) := by
  simp [SharedMemory.create, lookup_none_of_lt m n h]

theorem update_cons_self (n : Nat) (e : MemoryEntry) (m : SharedMemory) (f : MemField) :
    SharedMemory.update ((n, e) :: m) n f = .ok ((n, updateEntry e f) :: m) := by
  simp [SharedMemory.update]

theorem update_ok_lookup (m : SharedMemory) (d : Nat) (f : MemField) (m2 : SharedMemory)
    (h : m.update d f = .ok m2) :
    ∃ e, m.lookup d = some e ∧ m2.lookup d = some (updateEntry e f) := by
  induction m generalizing m2 with
  | nil => simp [SharedMemory.update] at h
  | cons p rest ih =>
      obtain ⟨k, e⟩ := p
      by_cases hk : k = d
      · subst hk
        rw [update_cons_self] at h
        simp only [Except.ok.injEq] at h
        subst h
        refine ⟨e, ?_, ?_⟩ <;> simp [List.lookup]
      · simp only [SharedMemory.update, if_neg hk] at h
        cases hu : SharedMemory.update rest d f with
        | ok rest' =>
            rw [hu] at h
            simp only [Except.ok.injEq] at h
            subst h
            obtain ⟨e', he1, he2⟩ := ih rest' hu
            have hne : (d == k) = false := by
              simp [Ne.symm hk]
            exact ⟨e', by simp [List.lookup, hne, he1], by simp [List.lookup, hne, he2]⟩
        | error err => rw [hu] at h; cases h

theorem update_notFound_iff (m : SharedMemory) (d : Nat) (f : MemField) :
    (m.update d f = .error .NotFound) ↔ m.lookup d = none := by
  induction m with
  | nil => simp [SharedMemory.update, List.lookup]
  | cons p rest ih =>
      obtain ⟨k, e⟩ := p
      by_cases hk : k = d
      · subst hk
        simp [SharedMemory.update, List.lookup]
      · have hne : (d == k) = false := by
          simp [Ne.symm hk]
        simp only [SharedMemory.update, if_neg hk, List.lookup, hne]
        cases hu : SharedMemory.update rest d f with
        | ok rest' =>
            simp only [hu] at ih
            simp [← ih]
        | error err =>
            simp only [hu] at ih
            simp only [hu]
            constructor
            · intro h
              simp only [Except.error.injEq] at h
              subst h
              exact ih.1 rfl
            · intro h
              have := ih.2 h
              simp only [Except.error.injEq] at this
              simp [this]

/-- C3: Shared Memory's `create` fails with `DuplicateKey` exactly when the
`doc_id` is already present, `get` fails with `NotFound` exactly when it is
absent, and `update` fails with `NotFound` exactly when the entry does not
exist; each failure is returned as an explicit error value. -/
theorem shared_memory_errors :
    ∀ (m : SharedMemory) (d : Nat) (doc : Document) (f : MemField),
      ((m.create d doc = .error .DuplicateKey) ↔ (m.lookup d).isSome = true) ∧
      ((m.get d = .error .NotFound) ↔ m.lookup d = none) ∧
      ((m.update d f = .error .NotFound) ↔ m.lookup d = none) := by
  intro m d doc f
  refine ⟨?_, ?_, update_notFound_iff m d f⟩
  · by_cases h : (m.lookup d).isSome = true <;> simp [SharedMemory.create, h]
  · cases h : m.lookup d <;> simp [SharedMemory.get, h]

/-- C1: a file whose MIME type is not PDF/JSON/plain text is rejected by the
drop handler before any upload request is built, and on the pipeline side an
`UNKNOWN` file type yields the `UnsupportedFormat` error envelope with the
document never routed and its memory entry left without any Classification
record. -/
theorem unsupported_format_rejected :
    (∀ (env : BackendEnv) (file : JFile) (rest : List JFile),
      file.type ∉ allowedTypes →
      onDrop env (file :: rest) = .ok ⟨some invalidTypeMsg, none, [], []⟩) ∧
    (∀ (cap : Capability) (schema : String → List String) (st : ProcState)
        (content : RawContent) (source : String),
      ProcState.WF st → detectFileType source = .UNKNOWN →
      (process_document cap schema st content source).1 =
        ⟨"error", some "UnsupportedFormat", none, none⟩ ∧
      (process_document cap schema st content source).2.memory =
        (st.nextId, ⟨⟨st.nextId, source, content, .UNKNOWN⟩, none, none, []⟩) :: st.memory) := by
  constructor
  · intro env file rest hf
    simp [onDrop, hf]
  · intro cap schema st content source hwf hft
    have hc := create_eq_of_wf st.memory st.nextId ⟨st.nextId, source, content, .UNKNOWN⟩ hwf
    constructor <;>
      simp [process_document, hft, hc, classify, pipeErrMsg]

/-- Witness for C1: a concrete `.exe` upload is rejected in the browser, and
a concrete `.exe` source is rejected by the pipeline with no Classification
written. -/
theorem unsupported_format_rejected_witness :
    (("application/x-msdownload" ∉ allowedTypes) ∧
      onDrop ⟨none, .reject ""⟩ [⟨"malware.exe", "application/x-msdownload"⟩] =
        .ok ⟨some invalidTypeMsg, none, [], []⟩) ∧
    (ProcState.WF ⟨0, [], []⟩ ∧ detectFileType "malware.exe" = .UNKNOWN ∧
      (process_document stubCap invoiceSchema ⟨0, [], []⟩ (.text "MZ") "malware.exe").1 =
        ⟨"error", some "UnsupportedFormat", none, none⟩ ∧
      (process_document stubCap invoiceSchema ⟨0, [], []⟩ (.text "MZ") "malware.exe").2.memory =
        [(0, ⟨⟨0, "malware.exe", .text "MZ", .UNKNOWN⟩, none, none, []⟩)]) := by
  have hwf : ProcState.WF ⟨0, [], []⟩ := by intro p hp; cases hp
  have hdet : detectFileType "malware.exe" = .UNKNOWN := by decide
  refine ⟨⟨by decide, ?_⟩, hwf, hdet, ?_, ?_⟩
  · exact unsupported_format_rejected.1 ⟨none, .reject ""⟩
      ⟨"malware.exe", "application/x-msdownload"⟩ [] (by decide)
  · exact (unsupported_format_rejected.2 stubCap invoiceSchema ⟨0, [], []⟩ (.text "MZ")
      "malware.exe" hwf hdet).1
  · exact (unsupported_format_rejected.2 stubCap invoiceSchema ⟨0, [], []⟩ (.text "MZ")
      "malware.exe" hwf hdet).2

/-! ### JSON Agent helper lemmas -/

theorem lookup_eraseField_self (f : String) (payload : JsonObj) :
    (eraseField f payload).lookup f = none := by
  induction payload with
  | nil => rfl
  | cons kv rest ih =>
      by_cases h : kv.1 = f
      · simpa [eraseField, h] using ih
      · have hne : (f == kv.1) = false := by simp [Ne.symm h]
        simpa [eraseField, h, List.lookup, hne] using ih

theorem lookup_eraseField_ne (f g : String) (payload : JsonObj) (h : g ≠ f) :
    (eraseField f payload).lookup g = payload.lookup g := by
  induction payload with
  | nil => rfl
  | cons kv rest ih =>
      by_cases hk : kv.1 = f
      · have hne : (g == f) = false := by simp [h]
        simpa [eraseField, hk, List.lookup, hne] using ih
      · by_cases hg : g = kv.1
        · simp [eraseField, hk, List.lookup, hg]
        · have hne : (g == kv.1) = false := by simp [hg]
          simpa [eraseField, hk, List.lookup, hne] using ih

/-- C2: with all required fields present, validation passes with no missing
fields; removing any required field flips `is_valid` to `false` and lists
that field in `missing_fields`, while the standardized result still carries
every other present required field. -/
theorem json_validation_missing_fields :
    ∀ (schema : String → List String) (intent : String) (payload : JsonObj),
      ((∀ f ∈ schema intent, hasField payload f = true) →
        (standardize schema intent payload).validation.is_valid = true ∧
        (standardize schema intent payload).validation.missing_fields = []) ∧
      (∀ f ∈ schema intent, (∀ g ∈ schema intent, hasField payload g = true) →
        (standardize schema intent (eraseField f payload)).validation.is_valid = false ∧
        f ∈ (standardize schema intent (eraseField f payload)).validation.missing_fields ∧
        ∀ g ∈ schema intent, g ≠ f →
          ∃ v, (g, v) ∈ (standardize schema intent (eraseField f payload)).standardized_fields) := by
  intro schema intent payload
  constructor
  · intro hall
    have hm : (schema intent).filter (fun f => !hasField payload f) = [] := by
      rw [List.filter_eq_nil_iff]
      intro a ha
      simp [hall a ha]
    simp [standardize, hm]
  · intro f hf hall
    have hmem : f ∈ (schema intent).filter (fun g => !hasField (eraseField f payload) g) := by
      rw [List.mem_filter]
      refine ⟨hf, ?_⟩
      simp [hasField, lookup_eraseField_self]
    refine ⟨?_, ?_, ?_⟩
    · have : (schema intent).filter (fun g => !hasField (eraseField f payload) g) ≠ [] :=
        List.ne_nil_of_mem hmem
      simp only [standardize]
      cases hl : (schema intent).filter (fun g => !hasField (eraseField f payload) g) with
      | nil => exact absurd hl this
      | cons a l => simp
    · simpa [standardize] using hmem
    · intro g hg hgf
      have hpres : hasField payload g = true := hall g hg
      obtain ⟨v, hv⟩ : ∃ v, payload.lookup g = some v := by
        simp only [hasField, Option.isSome_iff_exists] at hpres
        exact hpres
      refine ⟨v, ?_⟩
      simp only [standardize]
      rw [List.mem_filterMap]
      exact ⟨g, hg, by rw [lookup_eraseField_ne f g payload hgf, hv]; rfl⟩

/-- Witness for C2 at the spec's Invoice scenario: removing `timestamp` from
a fully valid Invoice payload invalidates it, lists `timestamp` as missing,
and keeps the two present fields in the standardized result. -/
theorem json_validation_missing_fields_witness :
    ("timestamp" ∈ invoiceSchema "Invoice") ∧
    (∀ g ∈ invoiceSchema "Invoice", hasField fullInvoice g = true) ∧
    (standardize invoiceSchema "Invoice" (eraseField "timestamp" fullInvoice)).validation.is_valid
        = false ∧
    "timestamp" ∈ (standardize invoiceSchema "Invoice"
        (eraseField "timestamp" fullInvoice)).validation.missing_fields ∧
    ∀ g ∈ invoiceSchema "Invoice", g ≠ "timestamp" →
      ∃ v, (g, v) ∈ (standardize invoiceSchema "Invoice"
        (eraseField "timestamp" fullInvoice)).standardized_fields := by
  refine ⟨by decide, by decide, ?_⟩
  have h := (json_validation_missing_fields invoiceSchema "Invoice" fullInvoice).2
    "timestamp" (by decide) (by decide)
  exact ⟨h.1, h.2.1, h.2.2⟩

/-! ### Pipeline helper lemmas -/

theorem persisted_entry (m2 m3 : SharedMemory) (d : Nat) (c : Classification)
    (r : ProcessingResult) (e1 : MemoryEntry)
    (h2 : m2.lookup d = some (updateEntry e1 (.classification c)))
    (h3 : m2.update d (.processing_result r) = .ok m3) :
    ∃ e, m3.lookup d = some e ∧ e.classification = some c ∧ e.processing_result = some r := by
  obtain ⟨e2, he2, he3⟩ := update_ok_lookup m2 d _ m3 h3
  rw [h2] at he2
  simp only [Option.some.injEq] at he2
  subst he2
  exact ⟨_, he3, rfl, rfl⟩

/-- C4: `classify` followed by the matched specialized agent preserves the
original `doc_id` across every record produced: the Classification, the
ProcessingResult, and the Shared Memory entry stored under that `doc_id`
holds both records. -/
theorem doc_id_preserved :
    ∀ (cap : Capability) (schema : String → List String) (threads : List ThreadRecord)
      (doc : Document) (m : SharedMemory) (c : Classification) (m2 : SharedMemory),
      doc.file_type ≠ .UNKNOWN →
      classify cap doc m = .ok (c, m2) →
      c.doc_id = doc.doc_id ∧
      ∀ r threads2 m3, dispatchAgent cap schema threads doc c m2 = .ok (r, threads2, m3) →
        r.docId = doc.doc_id ∧
        ∃ e, m3.lookup doc.doc_id = some e ∧
          e.classification = some c ∧ e.processing_result = some r := by
  intro cap schema threads doc m c m2 hft hc
  simp only [classify, if_neg hft] at hc
  split at hc
  case h_2 => cases hc
  case h_1 m2' hu =>
    simp only [Except.ok.injEq, Prod.mk.injEq] at hc
    obtain ⟨hc1, hc2⟩ := hc
    subst hc2
    rw [hc1] at hu
    obtain ⟨e1, he1, he2⟩ := update_ok_lookup m doc.doc_id _ m2' hu
    refine ⟨by rw [← hc1], ?_⟩
    intro r threads2 m3 hd
    cases hft2 : doc.file_type with
    | UNKNOWN => exact absurd hft2 hft
    | JSON =>
        simp only [dispatchAgent, hft2] at hd
        split at hd
        case h_2 => cases hd
        case h_1 r0 m30 hj =>
          simp only [Except.ok.injEq, Prod.mk.injEq] at hd
          obtain ⟨hr, hth, hm⟩ := hd
          subst hr; subst hm
          simp only [jsonAgentProcess] at hj
          split at hj
          case h_1 => cases hj
          case h_2 payload hp =>
            split at hj
            case h_2 => cases hj
            case h_1 m31 hu2 =>
              simp only [Except.ok.injEq, Prod.mk.injEq] at hj
              obtain ⟨hj1, hj2⟩ := hj
              subst hj1; subst hj2
              exact ⟨rfl, persisted_entry m2' m31 doc.doc_id c _ e1 he2 hu2⟩
    | EMAIL =>
        simp only [dispatchAgent, hft2, emailAgentProcess] at hd
        split at hd
        case h_2 => cases hd
        case h_1 m31 hu2 =>
          simp only [Except.ok.injEq, Prod.mk.injEq] at hd
          obtain ⟨hr, hth, hm⟩ := hd
          subst hr; subst hm
          exact ⟨rfl, persisted_entry m2' m31 doc.doc_id c _ e1 he2 hu2⟩
    | PDF =>
        simp only [dispatchAgent, hft2, pdfAgentProcess] at hd
        split at hd
        case h_2 => cases hd
        case h_1 r0 m30 hj =>
          simp only [Except.ok.injEq, Prod.mk.injEq] at hd
          obtain ⟨hr, hth, hm⟩ := hd
          subst hr; subst hm
          split at hj
          case h_2 => cases hj
          case h_1 m31 hu2 =>
            simp only [Except.ok.injEq, Prod.mk.injEq] at hj
            obtain ⟨hj1, hj2⟩ := hj
            subst hj1; subst hj2
            exact ⟨rfl, persisted_entry m2' m31 doc.doc_id c _ e1 he2 hu2⟩

/-- Witness for C4: a concrete Invoice JSON document keeps `doc_id = 5` in
the classification and processing result. -/
theorem doc_id_preserved_witness :
    (docW.file_type ≠ FileType.UNKNOWN) ∧
    classify stubCap docW memW = .ok (clsW, memW2) ∧
    dispatchAgent stubCap invoiceSchema [] docW clsW memW2 = .ok (resW, [], memW3) ∧
    clsW.doc_id = docW.doc_id ∧ resW.docId = docW.doc_id := by
  have hft : docW.file_type ≠ FileType.UNKNOWN := by decide
  have h := doc_id_preserved stubCap invoiceSchema [] docW memW clsW memW2 hft rfl
  exact ⟨hft, rfl, rfl, h.1, (h.2 resW [] memW3 rfl).1⟩

/-! ### Thread store helper lemmas -/

theorem findAndAdd_none_iff (p : ThreadRecord → Prop) [DecidablePred p]
    (f : ThreadRecord → ThreadRecord) (ts : List ThreadRecord) :
    findAndAdd p f ts = none ↔ ∀ t ∈ ts, ¬ p t := by
  induction ts with
  | nil => simp [findAndAdd]
  | cons t ts ih =>
      by_cases h : p t
      · simp [findAndAdd, h]
      · cases hf : findAndAdd p f ts with
        | some r =>
            obtain ⟨tid, ts'⟩ := r
            simp only [findAndAdd, if_neg h, hf]
            constructor
            · intro hx; cases hx
            · intro hall
              have hnone : findAndAdd p f ts = none :=
                ih.mpr (fun u hu => hall u (List.mem_cons_of_mem t hu))
              rw [hf] at hnone; cases hnone
        | none =>
            simp only [findAndAdd, if_neg h, hf]
            constructor
            · intro _ u hu
              rcases List.mem_cons.mp hu with rfl | hu'
              · exact h
              · exact (ih.mp hf) u hu'
            · intro _; trivial

theorem findAndAdd_append (p : ThreadRecord → Prop) [DecidablePred p]
    (f : ThreadRecord → ThreadRecord) (l1 l2 : List ThreadRecord) (t : ThreadRecord)
    (h1 : ∀ u ∈ l1, ¬ p u) (ht : p t) :
    findAndAdd p f (l1 ++ t :: l2) = some (t.thread_id, l1 ++ f t :: l2) := by
  induction l1 with
  | nil => simp [findAndAdd, ht]
  | cons u l1 ih =>
      have hu : ¬ p u := h1 u (List.mem_cons_self u l1)
      have ih2 := ih (fun v hv => h1 v (List.mem_cons_of_mem u hv))
      simp [findAndAdd, if_neg hu, ih2]

theorem findAndAdd_some (p : ThreadRecord → Prop) [DecidablePred p]
    (f : ThreadRecord → ThreadRecord) (ts : List ThreadRecord) (tid : Nat)
    (ts' : List ThreadRecord) (h : findAndAdd p f ts = some (tid, ts')) :
    ∃ l1 t l2, ts = l1 ++ t :: l2 ∧ (∀ u ∈ l1, ¬ p u) ∧ p t ∧ tid = t.thread_id ∧
      ts' = l1 ++ f t :: l2 := by
  induction ts generalizing tid ts' with
  | nil => cases h
  | cons t ts ih =>
      by_cases hp : p t
      · simp only [findAndAdd, if_pos hp, Option.some.injEq, Prod.mk.injEq] at h
        obtain ⟨h1, h2⟩ := h
        exact ⟨[], t, ts, rfl, by simp, hp, h1.symm, by simp [h2.symm]⟩
      · cases hf : findAndAdd p f ts with
        | none => simp [findAndAdd, if_neg hp, hf] at h
        | some r =>
            obtain ⟨tid0, ts0⟩ := r
            simp only [findAndAdd, if_neg hp, hf, Option.some.injEq, Prod.mk.injEq] at h
            obtain ⟨h1, h2⟩ := h
            obtain ⟨l1, u, l2, e1, e2, e3, e4, e5⟩ := ih tid0 ts0 hf
            refine ⟨t :: l1, u, l2, by simp [e1], ?_, e3, by rw [← h1, e4], ?_⟩
            · intro v hv
              rcases List.mem_cons.mp hv with rfl | hv'
              · exact hp
              · exact e2 v hv'
            · rw [← h2, e5]; rfl

theorem thread_id_lt_fresh (ts : List ThreadRecord) (t : ThreadRecord) (h : t ∈ ts) :
    t.thread_id < freshThreadId ts := by
  induction ts with
  | nil => cases h
  | cons u ts ih =>
      rcases List.mem_cons.mp h with rfl | h'
      · exact Nat.lt_succ_of_le (Nat.le_max_left _ _)
      · have := ih h'
        have hle : t.thread_id ≤ ts.foldr (fun t acc => max t.thread_id acc) 0 :=
          Nat.lt_succ_iff.mp this
        exact Nat.lt_succ_of_le (le_trans hle (Nat.le_max_right _ _))

/-- C5: two messages with the same normalized subject, the second carrying a
reference header to the first (whose message id is new to the store), land
in the same thread; a message matching no prior thread gets a fresh
`thread_id` distinct from every existing one. -/
theorem email_thread_resolution :
    ∀ (ts : List ThreadRecord) (h1 h2 : EmailHeaders) (d1 d2 : Nat),
      (normalizeSubject h2.subject = normalizeSubject h1.subject →
        h2.references = [h1.message_id] →
        (∀ t ∈ ts, h1.message_id ∉ t.msgIds) →
        (resolveThread (resolveThread ts h1 d1).2 h2 d2).1 = (resolveThread ts h1 d1).1) ∧
      ((∀ t ∈ ts, ¬ refPred h1 t ∧ ¬ partPred h1 t) →
        ∀ t ∈ ts, (resolveThread ts h1 d1).1 ≠ t.thread_id) := by
  intro ts h1 h2 d1 d2
  constructor
  · intro hsubj hrefs hfresh
    have hmem2 : h1.message_id ∈ h2.references := by rw [hrefs]; exact List.mem_singleton_self _
    cases hr : findAndAdd (refPred h1) (addMsg h1 d1) ts with
    | some res =>
        obtain ⟨tid, ts1⟩ := res
        obtain ⟨l1, t, l2, e1, e2, e3, e4, e5⟩ := findAndAdd_some _ _ ts tid ts1 hr
        have hres1 : resolveThread ts h1 d1 = (tid, ts1) := by
          simp [resolveThread, hr]
        have hnot : ∀ u ∈ l1, ¬ refPred h2 u := by
          intro u hu ⟨_, r, hr1, hr2⟩
          rw [hrefs] at hr1
          rcases List.mem_singleton.mp hr1 with rfl
          exact hfresh u (e1 ▸ List.mem_append_left _ hu) hr2
        have hpt : refPred h2 (addMsg h1 d1 t) := by
          refine ⟨?_, h1.message_id, hmem2, ?_⟩
          · rw [hsubj, e3.1]; rfl
          · exact List.mem_cons_self _ _
        have hfind2 : findAndAdd (refPred h2) (addMsg h2 d2) ts1 =
            some ((addMsg h1 d1 t).thread_id, l1 ++ addMsg h2 d2 (addMsg h1 d1 t) :: l2) := by
          rw [e5]
          exact findAndAdd_append _ _ l1 l2 _ hnot hpt
        rw [hres1]
        simp [resolveThread, hfind2, e4, addMsg]
    | none =>
        cases hp : findAndAdd (partPred h1) (addMsg h1 d1) ts with
        | some res =>
            obtain ⟨tid, ts1⟩ := res
            obtain ⟨l1, t, l2, e1, e2, e3, e4, e5⟩ := findAndAdd_some _ _ ts tid ts1 hp
            have hres1 : resolveThread ts h1 d1 = (tid, ts1) := by
              simp [resolveThread, hr, hp]
            have hnot : ∀ u ∈ l1, ¬ refPred h2 u := by
              intro u hu ⟨_, r, hr1, hr2⟩
              rw [hrefs] at hr1
              rcases List.mem_singleton.mp hr1 with rfl
              exact hfresh u (e1 ▸ List.mem_append_left _ hu) hr2
            have hpt : refPred h2 (addMsg h1 d1 t) := by
              refine ⟨?_, h1.message_id, hmem2, ?_⟩
              · rw [hsubj, e3.1]; rfl
              · exact List.mem_cons_self _ _
            have hfind2 : findAndAdd (refPred h2) (addMsg h2 d2) ts1 =
                some ((addMsg h1 d1 t).thread_id, l1 ++ addMsg h2 d2 (addMsg h1 d1 t) :: l2) := by
              rw [e5]
              exact findAndAdd_append _ _ l1 l2 _ hnot hpt
            rw [hres1]
            simp [resolveThread, hfind2, e4, addMsg]
        | none =>
            have hres1 : resolveThread ts h1 d1 =
                (freshThreadId ts,
                 ⟨freshThreadId ts, normalizeSubject h1.subject, [h1.sender],
                  [h1.message_id], [d1]⟩ :: ts) := by
              simp [resolveThread, hr, hp]
            have hpt : refPred h2
                (⟨freshThreadId ts, normalizeSubject h1.subject, [h1.sender],
                  [h1.message_id], [d1]⟩ : ThreadRecord) := by
              exact ⟨hsubj, h1.message_id, hmem2, List.mem_singleton_self _⟩
            rw [hres1]
            simp [resolveThread, findAndAdd, if_pos hpt]
  · intro hall t ht
    have hr : findAndAdd (refPred h1) (addMsg h1 d1) ts = none :=
      (findAndAdd_none_iff _ _ ts).mpr (fun u hu => (hall u hu).1)
    have hp : findAndAdd (partPred h1) (addMsg h1 d1) ts = none :=
      (findAndAdd_none_iff _ _ ts).mpr (fun u hu => (hall u hu).2)
    simp only [resolveThread, hr, hp]
    exact Nat.ne_of_gt (thread_id_lt_fresh ts t ht)

/-- Witness for C5 at two concrete linked messages over an empty store. -/
theorem email_thread_resolution_witness :
    (normalizeSubject (EmailHeaders.subject ⟨"b@y", "Invoice", "<m2>", ["<m1>"]⟩) =
      normalizeSubject (EmailHeaders.subject ⟨"a@x", "Invoice", "<m1>", []⟩)) ∧
    (resolveThread (resolveThread [] ⟨"a@x", "Invoice", "<m1>", []⟩ 0).2
        ⟨"b@y", "Invoice", "<m2>", ["<m1>"]⟩ 1).1 =
      (resolveThread [] ⟨"a@x", "Invoice", "<m1>", []⟩ 0).1 :=
  ⟨rfl, (email_thread_resolution [] ⟨"a@x", "Invoice", "<m1>", []⟩
      ⟨"b@y", "Invoice", "<m2>", ["<m1>"]⟩ 0 1).1 rfl rfl (by simp)⟩

theorem wf_cons_succ (n : Nat) (e : MemoryEntry) (mem : SharedMemory)
    (h : ∀ p ∈ mem, p.1 < n) : ∀ p ∈ (n, e) :: mem, p.1 < n + 1 := by
  intro p hp
  rcases List.mem_cons.mp hp with rfl | hp'
  · exact Nat.lt_succ_self n
  · exact Nat.lt_succ_of_lt (h p hp')

theorem resolveThread_idem (ts : List ThreadRecord) (h : EmailHeaders) (d1 d2 : Nat) :
    (resolveThread (resolveThread ts h d1).2 h d2).1 = (resolveThread ts h d1).1 := by
  cases hr : findAndAdd (refPred h) (addMsg h d1) ts with
  | some res =>
      obtain ⟨tid, ts1⟩ := res
      obtain ⟨l1, t, l2, e1, e2, e3, e4, e5⟩ := findAndAdd_some _ _ ts tid ts1 hr
      have hres1 : resolveThread ts h d1 = (tid, ts1) := by simp [resolveThread, hr]
      have hpt : refPred h (addMsg h d1 t) := by
        obtain ⟨hs, r, hr1, hr2⟩ := e3
        exact ⟨hs, r, hr1, List.mem_cons_of_mem _ hr2⟩
      have hfind2 : findAndAdd (refPred h) (addMsg h d2) ts1 =
          some ((addMsg h d1 t).thread_id, l1 ++ addMsg h d2 (addMsg h d1 t) :: l2) := by
        rw [e5]; exact findAndAdd_append _ _ l1 l2 _ e2 hpt
      rw [hres1]
      simp [resolveThread, hfind2, e4, addMsg]
  | none =>
      have hallref : ∀ u ∈ ts, ¬ refPred h u := (findAndAdd_none_iff _ _ ts).mp hr
      cases hp : findAndAdd (partPred h) (addMsg h d1) ts with
      | some res =>
          obtain ⟨tid, ts1⟩ := res
          obtain ⟨l1, t, l2, e1, e2, e3, e4, e5⟩ := findAndAdd_some _ _ ts tid ts1 hp
          have hres1 : resolveThread ts h d1 = (tid, ts1) := by
            simp [resolveThread, hr, hp]
          rw [hres1]
          by_cases hreft : refPred h (addMsg h d1 t)
          · have hfind2 : findAndAdd (refPred h) (addMsg h d2) ts1 =
                some ((addMsg h d1 t).thread_id, l1 ++ addMsg h d2 (addMsg h d1 t) :: l2) := by
              rw [e5]
              refine findAndAdd_append _ _ l1 l2 _ ?_ hreft
              intro u hu
              exact hallref u (e1 ▸ List.mem_append_left _ hu)
            simp [resolveThread, hfind2, e4, addMsg]
          · have hfind2 : findAndAdd (refPred h) (addMsg h d2) ts1 = none := by
              rw [e5]
              refine (findAndAdd_none_iff _ _ _).mpr ?_
              intro u hu
              rcases List.mem_append.mp hu with hu1 | hu2
              · exact hallref u (e1 ▸ List.mem_append_left _ hu1)
              · rcases List.mem_cons.mp hu2 with rfl | hu3
                · exact hreft
                · exact hallref u (e1 ▸ List.mem_append_right _ (List.mem_cons_of_mem _ hu3))
            have hppt : partPred h (addMsg h d1 t) := by
              obtain ⟨hs, _⟩ := e3
              exact ⟨hs, List.mem_cons_self _ _⟩
            have hfind3 : findAndAdd (partPred h) (addMsg h d2) ts1 =
                some ((addMsg h d1 t).thread_id, l1 ++ addMsg h d2 (addMsg h d1 t) :: l2) := by
              rw [e5]; exact findAndAdd_append _ _ l1 l2 _ e2 hppt
            simp [resolveThread, hfind2, hfind3, e4, addMsg]
      | none =>
          have hres1 : resolveThread ts h d1 =
              (freshThreadId ts,
               ⟨freshThreadId ts, normalizeSubject h.subject, [h.sender],
                [h.message_id], [d1]⟩ :: ts) := by
            simp [resolveThread, hr, hp]
          rw [hres1]
          by_cases hrefn : refPred h
              (⟨freshThreadId ts, normalizeSubject h.subject, [h.sender],
                [h.message_id], [d1]⟩ : ThreadRecord)
          · simp [resolveThread, findAndAdd, if_pos hrefn]
          · have hrn2 : findAndAdd (refPred h) (addMsg h d2) ts = none :=
              (findAndAdd_none_iff _ _ ts).mpr hallref
            have hpn : partPred h
                (⟨freshThreadId ts, normalizeSubject h.subject, [h.sender],
                  [h.message_id], [d1]⟩ : ThreadRecord) :=
              ⟨rfl, List.mem_cons_self _ _⟩
            simp [resolveThread, findAndAdd, if_neg hrefn, hrn2, if_pos hpn]

/-- C6: re-running `process_document` with identical content, source, and
capability yields the same status and structurally identical Classification
and ProcessingResult content, under fresh, distinct `doc_id`s: the
classification logic is deterministic given the same capability response. -/
theorem process_document_deterministic :
    ∀ (cap : Capability) (schema : String → List String) (st : ProcState)
      (content : RawContent) (source : String),
      ProcState.WF st →
      ((process_document cap schema (process_document cap schema st content source).2
          content source).1.status =
        (process_document cap schema st content source).1.status) ∧
      (∀ c1, (process_document cap schema st content source).1.classification = some c1 →
        ∃ c2, (process_document cap schema (process_document cap schema st content source).2
            content source).1.classification = some c2 ∧
          c2.doc_id ≠ c1.doc_id ∧ c2.file_type = c1.file_type ∧ c2.intent = c1.intent ∧
          c2.confidence = c1.confidence ∧ c2.source = c1.source) ∧
      (∀ r1, (process_document cap schema st content source).1.processing_result = some r1 →
        ∃ r2, (process_document cap schema (process_document cap schema st content source).2
            content source).1.processing_result = some r2 ∧
          r2.docId ≠ r1.docId ∧ ProcessingResult.sameModuloId r1 r2) := by
  intro cap schema st content source hwf
  obtain ⟨n, mem, threads⟩ := st
  have hwfm : ∀ p ∈ mem, p.1 < n := hwf
  cases hft : detectFileType source with
  | UNKNOWN =>
      have hc1 := create_eq_of_wf mem n ⟨n, source, content, .UNKNOWN⟩ hwfm
      have h1 : process_document cap schema ⟨n, mem, threads⟩ content source =
          (⟨"error", some "UnsupportedFormat", none, none⟩,
           ⟨n + 1, (n, ⟨⟨n, source, content, .UNKNOWN⟩, none, none, []⟩) :: mem, threads⟩) := by
        simp [process_document, hft, hc1, classify, pipeErrMsg]
      have hc2 := create_eq_of_wf _ (n + 1) ⟨n + 1, source, content, .UNKNOWN⟩
        (wf_cons_succ n ⟨⟨n, source, content, .UNKNOWN⟩, none, none, []⟩ mem hwfm)
      have h2 : (process_document cap schema
          ⟨n + 1, (n, ⟨⟨n, source, content, .UNKNOWN⟩, none, none, []⟩) :: mem, threads⟩
          content source).1 =
          ⟨"error", some "UnsupportedFormat", none, none⟩ := by
        simp [process_document, hft, hc2, classify, pipeErrMsg]
      have hrun2 : (process_document cap schema
          (process_document cap schema ⟨n, mem, threads⟩ content source).2
          content source).1 = ⟨"error", some "UnsupportedFormat", none, none⟩ := by
        rw [h1]; exact h2
      refine ⟨by rw [hrun2, h1], ?_, ?_⟩
      · intro c1 hc
        rw [h1] at hc
        simp at hc
      · intro r1 hr
        rw [h1] at hr
        simp at hr
  | PDF =>
      have hc1 := create_eq_of_wf mem n ⟨n, source, content, .PDF⟩ hwfm
      have h1 : process_document cap schema ⟨n, mem, threads⟩ content source =
          (⟨"success", none,
            some ⟨.PDF, (cap.inferIntent (excerpt .PDF content)).1,
                  (cap.inferIntent (excerpt .PDF content)).2, source, n⟩,
            some (.pdfResult n (excerpt .PDF content))⟩,
           ⟨n + 1,
            (n, updateEntry (updateEntry ⟨⟨n, source, content, .PDF⟩, none, none, []⟩
                  (.classification ⟨.PDF, (cap.inferIntent (excerpt .PDF content)).1,
                    (cap.inferIntent (excerpt .PDF content)).2, source, n⟩))
                  (.processing_result (.pdfResult n (excerpt .PDF content)))) :: mem,
            threads⟩) := by
        simp [process_document, hft, hc1, classify, dispatchAgent, pdfAgentProcess,
          update_cons_self]
      have hc2 := create_eq_of_wf _ (n + 1) ⟨n + 1, source, content, .PDF⟩
        (wf_cons_succ n (updateEntry (updateEntry ⟨⟨n, source, content, .PDF⟩, none, none, []⟩
              (.classification ⟨.PDF, (cap.inferIntent (excerpt .PDF content)).1,
                (cap.inferIntent (excerpt .PDF content)).2, source, n⟩))
              (.processing_result (.pdfResult n (excerpt .PDF content)))) mem hwfm)
      have h2 : (process_document cap schema
          ⟨n + 1,
           (n, updateEntry (updateEntry ⟨⟨n, source, content, .PDF⟩, none, none, []⟩
                 (.classification ⟨.PDF, (cap.inferIntent (excerpt .PDF content)).1,
                   (cap.inferIntent (excerpt .PDF content)).2, source, n⟩))
                 (.processing_result (.pdfResult n (excerpt .PDF content)))) :: mem,
           threads⟩ content source).1 =
          ⟨"success", none,
           some ⟨.PDF, (cap.inferIntent (excerpt .PDF content)).1,
                 (cap.inferIntent (excerpt .PDF content)).2, source, n + 1⟩,
           some (.pdfResult (n + 1) (excerpt .PDF content))⟩ := by
        simp [process_document, hft, hc2, classify, dispatchAgent, pdfAgentProcess,
          update_cons_self]
      have hrun2 : (process_document cap schema
          (process_document cap schema ⟨n, mem, threads⟩ content source).2
          content source).1 =
          ⟨"success", none,
           some ⟨.PDF, (cap.inferIntent (excerpt .PDF content)).1,
                 (cap.inferIntent (excerpt .PDF content)).2, source, n + 1⟩,
           some (.pdfResult (n + 1) (excerpt .PDF content))⟩ := by
        rw [h1]; exact h2
      refine ⟨by rw [hrun2, h1], ?_, ?_⟩
      · intro c1 hc
        rw [h1] at hc
        simp only [Option.some.injEq] at hc
        subst hc
        exact ⟨⟨.PDF, (cap.inferIntent (excerpt .PDF content)).1,
            (cap.inferIntent (excerpt .PDF content)).2, source, n + 1⟩,
          by rw [hrun2], Nat.succ_ne_self n, rfl, rfl, rfl, rfl⟩
      · intro r1 hr
        rw [h1] at hr
        simp only [Option.some.injEq] at hr
        subst hr
        exact ⟨.pdfResult (n + 1) (excerpt .PDF content),
          by rw [hrun2], Nat.succ_ne_self n, rfl⟩
  | JSON =>
      cases hp : parseJson content with
      | none =>
          have hc1 := create_eq_of_wf mem n ⟨n, source, content, .JSON⟩ hwfm
          have h1 : process_document cap schema ⟨n, mem, threads⟩ content source =
              (⟨"error", some "MalformedInput",
                some ⟨.JSON, (cap.inferIntent (excerpt .JSON content)).1,
                      (cap.inferIntent (excerpt .JSON content)).2, source, n⟩, none⟩,
               ⟨n + 1,
                (n, updateEntry ⟨⟨n, source, content, .JSON⟩, none, none, []⟩
                      (.classification ⟨.JSON, (cap.inferIntent (excerpt .JSON content)).1,
                        (cap.inferIntent (excerpt .JSON content)).2, source, n⟩)) :: mem,
                threads⟩) := by
            simp [process_document, hft, hc1, classify, dispatchAgent, jsonAgentProcess,
              hp, update_cons_self, pipeErrMsg]
          have hc2 := create_eq_of_wf _ (n + 1) ⟨n + 1, source, content, .JSON⟩
            (wf_cons_succ n (updateEntry ⟨⟨n, source, content, .JSON⟩, none, none, []⟩
              (.classification ⟨.JSON, (cap.inferIntent (excerpt .JSON content)).1,
                (cap.inferIntent (excerpt .JSON content)).2, source, n⟩)) mem hwfm)
          have h2 : (process_document cap schema
              ⟨n + 1,
               (n, updateEntry ⟨⟨n, source, content, .JSON⟩, none, none, []⟩
                     (.classification ⟨.JSON, (cap.inferIntent (excerpt .JSON content)).1,
                       (cap.inferIntent (excerpt .JSON content)).2, source, n⟩)) :: mem,
               threads⟩ content source).1 =
              ⟨"error", some "MalformedInput",
               some ⟨.JSON, (cap.inferIntent (excerpt .JSON content)).1,
                     (cap.inferIntent (excerpt .JSON content)).2, source, n + 1⟩, none⟩ := by
            simp [process_document, hft, hc2, classify, dispatchAgent, jsonAgentProcess,
              hp, update_cons_self, pipeErrMsg]
          have hrun2 : (process_document cap schema
              (process_document cap schema ⟨n, mem, threads⟩ content source).2
              content source).1 =
              ⟨"error", some "MalformedInput",
               some ⟨.JSON, (cap.inferIntent (excerpt .JSON content)).1,
                     (cap.inferIntent (excerpt .JSON content)).2, source, n + 1⟩, none⟩ := by
            rw [h1]; exact h2
          refine ⟨by rw [hrun2, h1], ?_, ?_⟩
          · intro c1 hc
            rw [h1] at hc
            simp only [Option.some.injEq] at hc
            subst hc
            exact ⟨⟨.JSON, (cap.inferIntent (excerpt .JSON content)).1,
            (cap.inferIntent (excerpt .JSON content)).2, source, n + 1⟩,
          by rw [hrun2], Nat.succ_ne_self n, rfl, rfl, rfl, rfl⟩
          · intro r1 hr
            rw [h1] at hr
            cases hr
      | some payload =>
          have hc1 := create_eq_of_wf mem n ⟨n, source, content, .JSON⟩ hwfm
          have h1 : process_document cap schema ⟨n, mem, threads⟩ content source =
              (⟨"success", none,
                some ⟨.JSON, (cap.inferIntent (excerpt .JSON content)).1,
                      (cap.inferIntent (excerpt .JSON content)).2, source, n⟩,
                some (.jsonResult n (standardize schema
                  (cap.inferIntent (excerpt .JSON content)).1 payload))⟩,
               ⟨n + 1,
                (n, updateEntry (updateEntry ⟨⟨n, source, content, .JSON⟩, none, none, []⟩
                      (.classification ⟨.JSON, (cap.inferIntent (excerpt .JSON content)).1,
                        (cap.inferIntent (excerpt .JSON content)).2, source, n⟩))
                      (.processing_result (.jsonResult n (standardize schema
                        (cap.inferIntent (excerpt .JSON content)).1 payload)))) :: mem,
                threads⟩) := by
            simp [process_document, hft, hc1, classify, dispatchAgent, jsonAgentProcess,
              hp, update_cons_self]
          have hc2 := create_eq_of_wf _ (n + 1) ⟨n + 1, source, content, .JSON⟩
            (wf_cons_succ n (updateEntry (updateEntry ⟨⟨n, source, content, .JSON⟩, none, none, []⟩
              (.classification ⟨.JSON, (cap.inferIntent (excerpt .JSON content)).1,
                (cap.inferIntent (excerpt .JSON content)).2, source, n⟩))
              (.processing_result (.jsonResult n (standardize schema
                (cap.inferIntent (excerpt .JSON content)).1 payload)))) mem hwfm)
          have h2 : (process_document cap schema
              ⟨n + 1,
               (n, updateEntry (updateEntry ⟨⟨n, source, content, .JSON⟩, none, none, []⟩
                     (.classification ⟨.JSON, (cap.inferIntent (excerpt .JSON content)).1,
                       (cap.inferIntent (excerpt .JSON content)).2, source, n⟩))
                     (.processing_result (.jsonResult n (standardize schema
                       (cap.inferIntent (excerpt .JSON content)).1 payload)))) :: mem,
               threads⟩ content source).1 =
              ⟨"success", none,
               some ⟨.JSON, (cap.inferIntent (excerpt .JSON content)).1,
                     (cap.inferIntent (excerpt .JSON content)).2, source, n + 1⟩,
               some (.jsonResult (n + 1) (standardize schema
                 (cap.inferIntent (excerpt .JSON content)).1 payload))⟩ := by
            simp [process_document, hft, hc2, classify, dispatchAgent, jsonAgentProcess,
              hp, update_cons_self]
          have hrun2 : (process_document cap schema
              (process_document cap schema ⟨n, mem, threads⟩ content source).2
              content source).1 =
              ⟨"success", none,
               some ⟨.JSON, (cap.inferIntent (excerpt .JSON content)).1,
                     (cap.inferIntent (excerpt .JSON content)).2, source, n + 1⟩,
               some (.jsonResult (n + 1) (standardize schema
                 (cap.inferIntent (excerpt .JSON content)).1 payload))⟩ := by
            rw [h1]; exact h2
          refine ⟨by rw [hrun2, h1], ?_, ?_⟩
          · intro c1 hc
            rw [h1] at hc
            simp only [Option.some.injEq] at hc
            subst hc
            exact ⟨⟨.JSON, (cap.inferIntent (excerpt .JSON content)).1,
            (cap.inferIntent (excerpt .JSON content)).2, source, n + 1⟩,
          by rw [hrun2], Nat.succ_ne_self n, rfl, rfl, rfl, rfl⟩
          · intro r1 hr
            rw [h1] at hr
            simp only [Option.some.injEq] at hr
            subst hr
            exact ⟨.jsonResult (n + 1) (standardize schema
            (cap.inferIntent (excerpt .JSON content)).1 payload),
          by rw [hrun2], Nat.succ_ne_self n, rfl⟩
  | EMAIL =>
      have hc1 := create_eq_of_wf mem n ⟨n, source, content, .EMAIL⟩ hwfm
      have h1 : process_document cap schema ⟨n, mem, threads⟩ content source =
          (⟨"success", none,
            some ⟨.EMAIL, (cap.inferIntent (excerpt .EMAIL content)).1,
                  (cap.inferIntent (excerpt .EMAIL content)).2, source, n⟩,
            some (.emailResult n (extractHeaders content.asText)
              ⟨(cap.inferIntent (excerpt .EMAIL content)).1,
               (cap.inferUrgency content.asText).1, (cap.inferUrgency content.asText).2⟩
              (resolveThread threads (extractHeaders content.asText) n).1)⟩,
           ⟨n + 1,
            (n, updateEntry (updateEntry ⟨⟨n, source, content, .EMAIL⟩, none, none, []⟩
                  (.classification ⟨.EMAIL, (cap.inferIntent (excerpt .EMAIL content)).1,
                    (cap.inferIntent (excerpt .EMAIL content)).2, source, n⟩))
                  (.processing_result (.emailResult n (extractHeaders content.asText)
                    ⟨(cap.inferIntent (excerpt .EMAIL content)).1,
                     (cap.inferUrgency content.asText).1,
                     (cap.inferUrgency content.asText).2⟩
                    (resolveThread threads (extractHeaders content.asText) n).1))) :: mem,
            (resolveThread threads (extractHeaders content.asText) n).2⟩) := by
        simp [process_document, hft, hc1, classify, dispatchAgent, emailAgentProcess,
          update_cons_self]
      have hc2 := create_eq_of_wf _ (n + 1) ⟨n + 1, source, content, .EMAIL⟩
        (wf_cons_succ n (updateEntry (updateEntry ⟨⟨n, source, content, .EMAIL⟩, none, none, []⟩
              (.classification ⟨.EMAIL, (cap.inferIntent (excerpt .EMAIL content)).1,
                (cap.inferIntent (excerpt .EMAIL content)).2, source, n⟩))
              (.processing_result (.emailResult n (extractHeaders content.asText)
                ⟨(cap.inferIntent (excerpt .EMAIL content)).1,
                 (cap.inferUrgency content.asText).1,
                 (cap.inferUrgency content.asText).2⟩
                (resolveThread threads (extractHeaders content.asText) n).1))) mem hwfm)
      have h2 : (process_document cap schema
          ⟨n + 1,
           (n, updateEntry (updateEntry ⟨⟨n, source, content, .EMAIL⟩, none, none, []⟩
                 (.classification ⟨.EMAIL, (cap.inferIntent (excerpt .EMAIL content)).1,
                   (cap.inferIntent (excerpt .EMAIL content)).2, source, n⟩))
                 (.processing_result (.emailResult n (extractHeaders content.asText)
                   ⟨(cap.inferIntent (excerpt .EMAIL content)).1,
                    (cap.inferUrgency content.asText).1,
                    (cap.inferUrgency content.asText).2⟩
                   (resolveThread threads (extractHeaders content.asText) n).1))) :: mem,
           (resolveThread threads (extractHeaders content.asText) n).2⟩ content source).1 =
          ⟨"success", none,
           some ⟨.EMAIL, (cap.inferIntent (excerpt .EMAIL content)).1,
                 (cap.inferIntent (excerpt .EMAIL content)).2, source, n + 1⟩,
           some (.emailResult (n + 1) (extractHeaders content.asText)
             ⟨(cap.inferIntent (excerpt .EMAIL content)).1,
              (cap.inferUrgency content.asText).1, (cap.inferUrgency content.asText).2⟩
             (resolveThread (resolveThread threads (extractHeaders content.asText) n).2
               (extractHeaders content.asText) (n + 1)).1)⟩ := by
        simp [process_document, hft, hc2, classify, dispatchAgent, emailAgentProcess,
          update_cons_self]
      have hrun2 : (process_document cap schema
          (process_document cap schema ⟨n, mem, threads⟩ content source).2
          content source).1 =
          ⟨"success", none,
           some ⟨.EMAIL, (cap.inferIntent (excerpt .EMAIL content)).1,
                 (cap.inferIntent (excerpt .EMAIL content)).2, source, n + 1⟩,
           some (.emailResult (n + 1) (extractHeaders content.asText)
             ⟨(cap.inferIntent (excerpt .EMAIL content)).1,
              (cap.inferUrgency content.asText).1, (cap.inferUrgency content.asText).2⟩
             (resolveThread threads (extractHeaders content.asText) n).1)⟩ := by
        rw [h1]
        rw [h2]
        rw [resolveThread_idem]
      refine ⟨by rw [hrun2, h1], ?_, ?_⟩
      · intro c1 hc
        rw [h1] at hc
        simp only [Option.some.injEq] at hc
        subst hc
        exact ⟨⟨.EMAIL, (cap.inferIntent (excerpt .EMAIL content)).1,
            (cap.inferIntent (excerpt .EMAIL content)).2, source, n + 1⟩,
          by rw [hrun2], Nat.succ_ne_self n, rfl, rfl, rfl, rfl⟩
      · intro r1 hr
        rw [h1] at hr
        simp only [Option.some.injEq] at hr
        subst hr
        exact ⟨.emailResult (n + 1) (extractHeaders content.asText)
            ⟨(cap.inferIntent (excerpt .EMAIL content)).1,
             (cap.inferUrgency content.asText).1, (cap.inferUrgency content.asText).2⟩
            (resolveThread threads (extractHeaders content.asText) n).1,
          by rw [hrun2], Nat.succ_ne_self n, rfl, rfl, rfl⟩


/-- Witness for C6: two consecutive runs on the same Invoice JSON input from
the empty state give the same status, and the first run succeeds. -/
theorem process_document_deterministic_witness :
    ProcState.WF ⟨0, [], []⟩ ∧
    (process_document stubCap invoiceSchema ⟨0, [], []⟩
        (.jsonObj fullInvoice) "inv.json").1.status = "success" ∧
    ((process_document stubCap invoiceSchema
        (process_document stubCap invoiceSchema ⟨0, [], []⟩
          (.jsonObj fullInvoice) "inv.json").2 (.jsonObj fullInvoice) "inv.json").1.status =
      (process_document stubCap invoiceSchema ⟨0, [], []⟩
        (.jsonObj fullInvoice) "inv.json").1.status) := by
  have hwf : ProcState.WF ⟨0, [], []⟩ := by intro p hp; cases hp
  exact ⟨hwf, rfl, (process_document_deterministic stubCap invoiceSchema ⟨0, [], []⟩
    (.jsonObj fullInvoice) "inv.json" hwf).1⟩
